import Mathlib

/-!
Verification of the device-side media synchronization and playback cache of the
tv.box digital-signage player.  The definitions below are shallow embeddings of
the functions in `src/utils/deviceStorage.ts`, `src/utils/websocket.ts`
(`WebSocketManager` and `VideoCache`) and the `MediaPlayer` / `TVBoxDisplay`
components: async code is modelled by explicit state passing, IndexedDB object
stores by association lists keyed as in the source, the network by an oracle
`String → Option Blob` (`none` models a failed `fetch`), and timestamps by
naturals.
-/

namespace TVBox

/-- A binary blob; `size` is the byte length, as in the DOM `Blob`. -/
structure Blob where
  data : List Nat
  deriving DecidableEq, Repr

def Blob.size (b : Blob) : Nat := b.data.length

/-- `'video' | 'image'` media kind of a playlist item. -/
inductive MediaKind
  | video
  | image
  deriving DecidableEq, Repr

/-- A playlist item as stored in the `playlist` object store and delivered by the
server (`interface PlaylistItem` in `MediaPlayer`).  A missing `checksum` is
modelled as `none` (JS `undefined`; an empty string is likewise falsy in the
source and is not modelled). -/
structure PlaylistItem where
  id : Nat
  kind : MediaKind
  url : String
  duration_seconds : Option Nat
  order : Int
  active : Bool
  checksum : Option String
  deriving DecidableEq, Repr

/-- An entry of the `media_cache` object store of `DeviceStorage`
(`cacheMedia` builds it with `size := blob.size`). -/
structure MediaCacheEntry where
  blob : Blob
  cachedAt : Nat
  size : Nat
  checksum : String
  deriving DecidableEq, Repr

/-- The `media_cache` object store, keyed by URL. -/
abbrev MediaCacheMap : Type := List (String × MediaCacheEntry)

/-- IndexedDB `get` on the `media_cache` store. -/
def cacheLookup (c : MediaCacheMap) (url : String) : Option MediaCacheEntry :=
  (List.find? (fun p => p.1 == url) c).map (fun p => p.2)

/-- IndexedDB `delete` on the `media_cache` store. -/
def cacheErase (c : MediaCacheMap) (url : String) : MediaCacheMap :=
  List.filter (fun p => p.1 != url) c

/-- IndexedDB `put` (upsert) on the `media_cache` store. -/
def cachePut (c : MediaCacheMap) (url : String) (e : MediaCacheEntry) : MediaCacheMap :=
  cacheErase c url ++ [(url, e)]

/-- `DeviceStorage.cacheMedia(url, blob, checksum)`: store an entry with
`size = blob.size` and the current time as `cachedAt`. -/
def cacheMedia (c : MediaCacheMap) (url : String) (blob : Blob) (checksum : String)
    (now : Nat) : MediaCacheMap :=
  cachePut c url { blob := blob, cachedAt := now, size := blob.size, checksum := checksum }

/-- `DeviceStorage.getCachedMedia(url)`: the stored blob, if any. -/
def getCachedMedia (c : MediaCacheMap) (url : String) : Option Blob :=
  (cacheLookup c url).map (fun e => e.blob)

/-- `DeviceStorage.isCached(url, checksum?)`.  Returns the boolean result
together with the store, because the checksum-mismatch branch deletes the stale
entry (`await this.db!.delete('media_cache', url)`). -/
def isCached (c : MediaCacheMap) (url : String) (checksum : Option String) :
    Bool × MediaCacheMap :=
  match cacheLookup c url with
  | none => (false, c)
  | some entry =>
    match checksum with
    | some ck => if entry.checksum ≠ ck then (false, cacheErase c url) else (true, c)
    | none => (true, c)

/-- The reference `preloadMedia` resolves for the playback layer: either a blob
URL (`URL.createObjectURL`) or the item's original remote URL (fallback on
download failure). -/
inductive MediaRef
  | blobUrl (b : Blob)
  | remote (url : String)
  deriving DecidableEq, Repr

/-- Result of `MediaPlayer.preloadMedia`: the playable reference, the media
cache afterwards, and how many network fetches were performed. -/
structure PreloadOut where
  ref : MediaRef
  cache : MediaCacheMap
  fetches : Nat
  deriving DecidableEq

/-- The download half of `MediaPlayer.preloadMedia`: `fetch(item.url)`; on
failure the `catch` returns the original URL; on success the blob is cached
only `if (item.checksum)`.  Exactly one network fetch happens either way. -/
def preloadFetch (net : String → Option Blob) (c : MediaCacheMap) (item : PlaylistItem)
    (now : Nat) : PreloadOut :=
  match net item.url with
  | none => { ref := MediaRef.remote item.url, cache := c, fetches := 1 }
  | some blob =>
    match item.checksum with
    | some ck =>
      { ref := MediaRef.blobUrl blob, cache := cacheMedia c item.url blob ck now, fetches := 1 }
    | none => { ref := MediaRef.blobUrl blob, cache := c, fetches := 1 }

/-- `MediaPlayer.preloadMedia(item)`: serve from the cache when
`isCached(item.url, item.checksum)` holds and the blob is present, otherwise
download (and cache only when the item carries a checksum). -/
def preloadMedia (net : String → Option Blob) (c : MediaCacheMap) (item : PlaylistItem)
    (now : Nat) : PreloadOut :=
  let res := isCached c item.url item.checksum
  if res.1 then
    match getCachedMedia res.2 item.url with
    | some blob => { ref := MediaRef.blobUrl blob, cache := res.2, fetches := 0 }
    | none => preloadFetch net res.2 item now
  else
    preloadFetch net res.2 item now

/-- IndexedDB `put` on the `playlist` object store (`keyPath: 'id'`): upsert by
`id`. -/
def putItem (store : List PlaylistItem) (item : PlaylistItem) : List PlaylistItem :=
  List.filter (fun x => x.id != item.id) store ++ [item]

/-- `DeviceStorage.savePlaylist(items)`: one readwrite transaction that clears
the `playlist` store and then `put`s every item. -/
def savePlaylist (items : List PlaylistItem) : List PlaylistItem :=
  items.foldl putItem []

/-- `DeviceStorage.getPlaylist()`: `getAll` returns records in key (`id`) order;
the result is then sorted by `order` (`items.sort((a, b) => a.order - b.order)`,
a stable sort).  Both sorts are modelled with the stable `List.mergeSort`. -/
def getPlaylist (store : List PlaylistItem) : List PlaylistItem :=
  (store.mergeSort (fun a b => decide (a.id ≤ b.id))).mergeSort
    (fun a b => decide (a.order ≤ b.order))

/-- One IndexedDB operation inside the `savePlaylist` readwrite transaction. -/
inductive PlaylistOp
  | clear
  | put (item : PlaylistItem)
  deriving DecidableEq

/-- Effect of one transaction operation on the `playlist` store. -/
def applyOp (store : List PlaylistItem) : PlaylistOp → List PlaylistItem
  | PlaylistOp.clear => []
  | PlaylistOp.put item => putItem store item

/-- Running a transaction script against the store. -/
def applyTx (store : List PlaylistItem) (tx : List PlaylistOp) : List PlaylistItem :=
  tx.foldl applyOp store

/-- The transaction script of `DeviceStorage.savePlaylist(items)`:
`tx.store.clear()` followed by `tx.store.put(item)` for each item, committed as
one readwrite transaction (`await tx.done`). -/
def savePlaylistTx (items : List PlaylistItem) : List PlaylistOp :=
  PlaylistOp.clear :: items.map PlaylistOp.put

/-- IndexedDB transaction isolation: a concurrent reader of the `playlist`
store observes it only at transaction boundaries, i.e. either before or after
the `savePlaylist` transaction commits — never between its operations. -/
def readerObservable (store : List PlaylistItem) (items : List PlaylistItem) :
    List (List PlaylistItem) :=
  [store, applyTx store (savePlaylistTx items)]

/-- Device-side state touched by `MediaPlayer.loadPlaylist`:
the persisted `playlist` store, the media cache, `lastSync` (written by
`DeviceStorage.updateLastSync`), the `playlist` React state (`displayed`), the
`error` React state, and a count of media fetches (loadPlaylist performs none). -/
structure DeviceState where
  playlistStore : List PlaylistItem
  mediaCache : MediaCacheMap
  lastSync : Option Nat
  displayed : List PlaylistItem
  errorMsg : Option String
  mediaFetches : Nat
  deriving DecidableEq

/-- `MediaPlayer.loadPlaylist()`.  `fetchResult = some p` models a successful
`GET /device/:id/playlist` (save to storage, display it, `updateLastSync`,
clear the error); `fetchResult = none` models the `catch` path (display the
cached playlist if non-empty, otherwise keep the old display and report no
content; storage, cache and `lastSync` are untouched). -/
def loadPlaylist (fetchResult : Option (List PlaylistItem)) (s : DeviceState)
    (now : Nat) : DeviceState :=
  match fetchResult with
  | some serverPlaylist =>
    { s with
      playlistStore := savePlaylist serverPlaylist
      displayed := serverPlaylist
      lastSync := some now
      errorMsg := none }
  | none =>
    let cached := getPlaylist s.playlistStore
    if cached.length > 0 then
      { s with displayed := cached, errorMsg := some "Usando playlist em cache (offline)" }
    else
      { s with errorMsg := some "Nenhum conteudo disponivel" }

/-- An entry of the `videos` object store of `VideoCache` (`websocket.ts`
second module), `keyPath: 'id'`. -/
structure CachedVideo where
  id : String
  url : String
  blob : Blob
  size : Nat
  mimeType : String
  cachedAt : Nat
  lastAccessed : Nat
  expiresAt : Option Nat
  deriving DecidableEq

/-- `VideoCache.maxVideoAge`: 7 days in milliseconds. -/
def maxVideoAge : Nat := 7 * 24 * 60 * 60 * 1000

/-- The `CachedVideo` record built inside `VideoCache.cacheVideo` after a
successful download (`size: blob.size`, `expiresAt: Date.now() + maxVideoAge`). -/
def mkCachedVideo (videoId url : String) (blob : Blob) (mimeType : String)
    (now : Nat) : CachedVideo :=
  { id := videoId, url := url, blob := blob, size := blob.size, mimeType := mimeType,
    cachedAt := now, lastAccessed := now, expiresAt := some (now + maxVideoAge) }

/-- `getCacheStats().totalSize`: sum of the sizes of all stored videos. -/
def cacheTotalSize (videos : List CachedVideo) : Nat :=
  (videos.map (fun v => v.size)).sum

/-- `videos.sort((a, b) => a.lastAccessed - b.lastAccessed)` inside
`ensureSpace` — stable ascending sort by last access time. -/
def sortByLastAccessed (videos : List CachedVideo) : List CachedVideo :=
  videos.mergeSort (fun a b => decide (a.lastAccessed ≤ b.lastAccessed))

/-- The eviction loop of `VideoCache.ensureSpace`, returning the evicted
videos in eviction order.  The source guard
`stats.totalSize + requiredSize - freedSpace <= this.maxCacheSize` is written
additively (`totalSize + requiredSize ≤ maxCacheSize + freedSpace`), which is
equivalent over the integers and avoids truncated subtraction. -/
def evictLoop (sorted : List CachedVideo) (totalSize requiredSize maxCacheSize freedSpace : Nat) :
    List CachedVideo :=
  match sorted with
  | [] => []
  | v :: rest =>
    if totalSize + requiredSize ≤ maxCacheSize + freedSpace then []
    else v :: evictLoop rest totalSize requiredSize maxCacheSize (freedSpace + v.size)

/-- `VideoCache.removeVideo` deletes by key `id`; removing every evicted video
from the store. -/
def removeAll (videos evicted : List CachedVideo) : List CachedVideo :=
  videos.filter (fun v => !((evicted.map (fun e => e.id)).contains v.id))

/-- `VideoCache.ensureSpace(requiredSize)`: nothing to do when the new size
fits; otherwise evict least-recently-accessed videos first until it fits or
none remain.  Returns the store afterwards. -/
def ensureSpace (videos : List CachedVideo) (requiredSize maxCacheSize : Nat) :
    List CachedVideo :=
  if cacheTotalSize videos + requiredSize ≤ maxCacheSize then videos
  else
    removeAll videos
      (evictLoop (sortByLastAccessed videos) (cacheTotalSize videos) requiredSize maxCacheSize 0)

/-- IndexedDB `put` on the `videos` store (`saveToCache`), upsert by `id`. -/
def putVideo (videos : List CachedVideo) (v : CachedVideo) : List CachedVideo :=
  videos.filter (fun x => x.id != v.id) ++ [v]

/-- The storing path of `VideoCache.cacheVideo` after a successful download of
a video not already cached: `await this.ensureSpace(blob.size)` then
`await this.saveToCache(cachedVideo)`.  There is no CacheFull branch: the
entry is stored unconditionally once eviction has run. -/
def cacheVideoStore (videos : List CachedVideo) (v : CachedVideo) (maxCacheSize : Nat) :
    List CachedVideo :=
  putVideo (ensureSpace videos v.size maxCacheSize) v

/-- `WebSocketManager.maxReconnectAttempts`. -/
def maxReconnectAttempts : Nat := 5

/-- `WebSocketManager.reconnectDelay` (base delay, ms). -/
def reconnectDelay : Nat := 1000

/-- The reconnect-relevant state of `WebSocketManager`. -/
structure WSState where
  reconnectAttempts : Nat
  deriving DecidableEq

/-- `WebSocketManager.handleReconnect()`: give up (no timer scheduled) once
`reconnectAttempts >= maxReconnectAttempts`; otherwise increment the counter
and schedule `connect()` after `reconnectDelay * 2 ** (attempts - 1)` ms.
Returns `none` when no reconnection is scheduled, otherwise the new state and
the scheduled delay. -/
def handleReconnect (s : WSState) : Option (WSState × Nat) :=
  if s.reconnectAttempts ≥ maxReconnectAttempts then none
  else
    some ({ reconnectAttempts := s.reconnectAttempts + 1 },
      reconnectDelay * 2 ^ ((s.reconnectAttempts + 1) - 1))

/-- The `connect` socket event handler: `this.reconnectAttempts = 0`. -/
def onConnectReset (_s : WSState) : WSState := { reconnectAttempts := 0 }

/-- Telemetry the player pushes through the WebSocket channel. -/
inductive TelemetryEvent
  | playbackStarted (itemId : Nat)
  | playbackEnded (itemId : Nat)
  | errorReport (message : String)
  deriving DecidableEq

/-- `MediaPlayer.handleMediaEnd()`: send a `device:playback` ended event when
the current item exists, then advance the index mod the playlist length.
Returns the emitted events and the new index. -/
def handleMediaEnd (playlist : List PlaylistItem) (currentIndex : Nat) :
    List TelemetryEvent × Nat :=
  match playlist[currentIndex]? with
  | some item => ([TelemetryEvent.playbackEnded item.id], (currentIndex + 1) % playlist.length)
  | none => ([], (currentIndex + 1) % playlist.length)

/-- The `error` handler installed by `MediaPlayer.setupVideoHandlers`:
`wsManager.sendError(...)` then `handleMediaEnd()`.  The advance happens
immediately; the last component is the delay (ms) before the index changes. -/
def mediaPlayerOnError (playlist : List PlaylistItem) (currentIndex : Nat) :
    List TelemetryEvent × Nat × Nat :=
  let e := handleMediaEnd playlist currentIndex
  (TelemetryEvent.errorReport "Video playback error" :: e.1, e.2, 0)

/-- The `onError` handler of the `TVBoxDisplay` video element: show the error
and advance `(prevIndex + 1) % content.length` inside a `setTimeout(..., 3000)`.
No error report is sent to the server.  Result: emitted events, new index,
delay (ms) before the index changes. -/
def tvboxOnError (contentLength : Nat) (currentIndex : Nat) :
    List TelemetryEvent × Nat × Nat :=
  ([], (currentIndex + 1) % contentLength, 3000)

/-- State touched by `MediaPlayer.loadCurrentMedia`. -/
structure PlayerState where
  playlist : List PlaylistItem
  currentIndex : Nat
  mediaCache : MediaCacheMap
  currentMediaUrl : Option MediaRef
  nextMediaUrl : Option MediaRef
  events : List TelemetryEvent
  mediaFetches : Nat
  deriving DecidableEq

/-- `MediaPlayer.loadCurrentMedia()`: nothing on an empty playlist; when the
current item is missing or `active = false`, advance the index mod the
playlist length without playing; otherwise preload the current item, preload
the next item when it exists and is active, and send a `started` playback
event. -/
def loadCurrentMedia (net : String → Option Blob) (s : PlayerState) (now : Nat) :
    PlayerState :=
  if s.playlist.length = 0 then s
  else
    match s.playlist[s.currentIndex]? with
    | none => { s with currentIndex := (s.currentIndex + 1) % s.playlist.length }
    | some currentItem =>
      if currentItem.active = false then
        { s with currentIndex := (s.currentIndex + 1) % s.playlist.length }
      else
        let cur := preloadMedia net s.mediaCache currentItem now
        let nextIndex := (s.currentIndex + 1) % s.playlist.length
        match s.playlist[nextIndex]? with
        | some nextItem =>
          if nextItem.active then
            let nx := preloadMedia net cur.cache nextItem now
            { s with
              currentMediaUrl := some cur.ref
              nextMediaUrl := some nx.ref
              mediaCache := nx.cache
              events := s.events ++ [TelemetryEvent.playbackStarted currentItem.id]
              mediaFetches := s.mediaFetches + cur.fetches + nx.fetches }
          else
            { s with
              currentMediaUrl := some cur.ref
              mediaCache := cur.cache
              events := s.events ++ [TelemetryEvent.playbackStarted currentItem.id]
              mediaFetches := s.mediaFetches + cur.fetches }
        | none =>
          { s with
            currentMediaUrl := some cur.ref
            mediaCache := cur.cache
            events := s.events ++ [TelemetryEvent.playbackStarted currentItem.id]
            mediaFetches := s.mediaFetches + cur.fetches }

/-- Concrete active video item with no checksum, used by witnesses. -/
def exItemA : PlaylistItem :=
  { id := 1, kind := MediaKind.video, url := "http://m/a.mp4", duration_seconds := none,
    order := 1, active := true, checksum := none }

/-- Concrete active video item with a checksum, used by witnesses. -/
def exItemB : PlaylistItem :=
  { id := 2, kind := MediaKind.video, url := "http://m/b.mp4", duration_seconds := none,
    order := 2, active := true, checksum := some "ckB" }

/-- Concrete inactive image item, used by witnesses. -/
def exItemCInactive : PlaylistItem :=
  { id := 3, kind := MediaKind.image, url := "http://m/c.jpg", duration_seconds := some 5,
    order := 3, active := false, checksum := none }

/-- Concrete cached entry with checksum "A", used by witnesses. -/
def exEntryA : MediaCacheEntry := { blob := ⟨[7]⟩, cachedAt := 0, size := 1, checksum := "A" }

/-- Concrete blob served by the witness network oracle. -/
def exBlob : Blob := ⟨[1, 2, 3]⟩

/-- Network oracle on which every fetch fails. -/
def exNetFail : String → Option Blob := fun _ => none

/-- Network oracle on which every fetch returns `exBlob`. -/
def exNetB : String → Option Blob := fun _ => some exBlob

/-- Concrete one-entry media cache, used by witnesses. -/
def exCacheA : MediaCacheMap := [("u", exEntryA)]

/-- Concrete item whose checksum matches the cached entry in `exCacheA`. -/
def exItemSame : PlaylistItem :=
  { id := 10, kind := MediaKind.video, url := "u", duration_seconds := none,
    order := 1, active := true, checksum := some "A" }

/-- Concrete item with the same URL but a different checksum. -/
def exItemDiff : PlaylistItem :=
  { id := 10, kind := MediaKind.video, url := "u", duration_seconds := none,
    order := 1, active := true, checksum := some "B" }

/-- Claim C2: an item cached with checksum C and preloaded again with the same
checksum C is served from the cache with zero network fetches and the cache
unchanged; preloading the same URL with a different checksum C' treats the
entry as stale (it is deleted by `isCached`) and performs exactly one re-fetch,
storing the new blob under C'. -/
theorem C2_checksum_roundtrip (net net2 : String → Option Blob) (c : MediaCacheMap)
    (item item2 : PlaylistItem) (e : MediaCacheEntry) (ck ck2 : String) (b : Blob)
    (now now2 : Nat)
    (hlook : cacheLookup c item.url = some e) (he : e.checksum = ck)
    (hitem : item.checksum = some ck)
    (hurl : item2.url = item.url) (hitem2 : item2.checksum = some ck2) (hne : ck2 ≠ ck)
    (hnet : net2 item2.url = some b) :
    preloadMedia net c item now =
      { ref := MediaRef.blobUrl e.blob, cache := c, fetches := 0 } ∧
    preloadMedia net2 c item2 now2 =
      { ref := MediaRef.blobUrl b,
        cache := cacheMedia (cacheErase c item2.url) item2.url b ck2 now2,
        fetches := 1 } := by
  constructor
  · simp [preloadMedia, isCached, hlook, hitem, he, getCachedMedia]
  · have hlook2 : cacheLookup c item2.url = some e := by rw [hurl]; exact hlook
    have hne' : e.checksum ≠ ck2 := by rw [he]; exact fun h => hne h.symm
    simp [preloadMedia, isCached, hlook2, hitem2, hne', preloadFetch, hnet]

/-- Witness for C2 at a concrete cache, item pair and network oracle. -/
theorem C2_checksum_roundtrip_witness :
    cacheLookup exCacheA exItemSame.url = some exEntryA ∧ ("B" : String) ≠ "A" ∧
    (preloadMedia exNetFail exCacheA exItemSame 5).fetches = 0 ∧
    (preloadMedia exNetB exCacheA exItemDiff 6).fetches = 1 := by
  have h := C2_checksum_roundtrip exNetFail exNetB exCacheA exItemSame exItemDiff exEntryA
    "A" "B" exBlob 5 6 (by decide) (by decide) (by decide) (by decide) (by decide)
    (by decide) (by decide)
  exact ⟨by decide, by decide, by rw [h.1], by rw [h.2]⟩

/-- Claim C10: for an item with no checksum, `preloadMedia` never modifies the
persistent media cache; when the URL is not cached a successful download
returns a blob reference after exactly one fetch (without storing it), and a
failed download returns the item's original remote URL instead of throwing. -/
theorem C10_no_checksum_not_cached (net : String → Option Blob) (c : MediaCacheMap)
    (item : PlaylistItem) (b : Blob) (now : Nat) (hck : item.checksum = none) :
    (preloadMedia net c item now).cache = c ∧
    (cacheLookup c item.url = none → net item.url = some b →
      preloadMedia net c item now =
        { ref := MediaRef.blobUrl b, cache := c, fetches := 1 }) ∧
    (cacheLookup c item.url = none → net item.url = none →
      preloadMedia net c item now =
        { ref := MediaRef.remote item.url, cache := c, fetches := 1 }) := by
  refine ⟨?_, ?_, ?_⟩
  · cases hl : cacheLookup c item.url with
    | some e => simp [preloadMedia, isCached, hl, hck, getCachedMedia]
    | none =>
      cases hn : net item.url with
      | some blob => simp [preloadMedia, isCached, hl, hck, preloadFetch, hn]
      | none => simp [preloadMedia, isCached, hl, preloadFetch, hn]
  · intro hl hn
    simp [preloadMedia, isCached, hl, preloadFetch, hn, hck]
  · intro hl hn
    simp [preloadMedia, isCached, hl, preloadFetch, hn]

/-- Witness for C10 on the empty cache with both network outcomes. -/
theorem C10_no_checksum_not_cached_witness :
    exItemA.checksum = none ∧ cacheLookup [] exItemA.url = none ∧
    (preloadMedia exNetB [] exItemA 0).cache = [] ∧
    preloadMedia exNetB [] exItemA 0 =
      { ref := MediaRef.blobUrl exBlob, cache := [], fetches := 1 } ∧
    preloadMedia exNetFail [] exItemA 0 =
      { ref := MediaRef.remote exItemA.url, cache := [], fetches := 1 } := by
  have h1 := C10_no_checksum_not_cached exNetB [] exItemA exBlob 0 (by decide)
  have h2 := C10_no_checksum_not_cached exNetFail [] exItemA exBlob 0 (by decide)
  exact ⟨by decide, by decide, h1.1, h1.2.1 (by decide) (by decide),
    h2.2.2 (by decide) (by decide)⟩

/-- Claim C7: running `loadPlaylist` twice with the same server playlist and no
server-side change leaves the stored snapshot, the displayed playlist, the
media cache, the fetch count and the error state of the second run identical to
the first; only `lastSync` moves to the second sync time. -/
theorem C7_sync_idempotent (s : DeviceState) (p : List PlaylistItem) (t1 t2 : Nat) :
    (loadPlaylist (some p) (loadPlaylist (some p) s t1) t2).playlistStore =
      (loadPlaylist (some p) s t1).playlistStore ∧
    (loadPlaylist (some p) (loadPlaylist (some p) s t1) t2).displayed =
      (loadPlaylist (some p) s t1).displayed ∧
    (loadPlaylist (some p) (loadPlaylist (some p) s t1) t2).mediaCache =
      (loadPlaylist (some p) s t1).mediaCache ∧
    (loadPlaylist (some p) (loadPlaylist (some p) s t1) t2).mediaFetches =
      (loadPlaylist (some p) s t1).mediaFetches ∧
    (loadPlaylist (some p) (loadPlaylist (some p) s t1) t2).errorMsg =
      (loadPlaylist (some p) s t1).errorMsg ∧
    (loadPlaylist (some p) (loadPlaylist (some p) s t1) t2).lastSync = some t2 := by
  simp [loadPlaylist]

/-- Claim C3: the reconnect delay starts at the base delay, doubles on each
successive attempt (hence is non-decreasing), stays below the cap reached at
the last allowed attempt, and once the attempt counter reaches
`maxReconnectAttempts` no further reconnection is scheduled. -/
theorem C3_backoff (s s1 s2 : WSState) (d1 d2 : Nat)
    (h1 : handleReconnect s = some (s1, d1))
    (h2 : handleReconnect s1 = some (s2, d2)) :
    (s.reconnectAttempts = 0 → d1 = reconnectDelay) ∧
    d2 = 2 * d1 ∧
    d1 ≤ d2 ∧
    d2 ≤ reconnectDelay * 2 ^ (maxReconnectAttempts - 1) ∧
    (∀ s' : WSState, maxReconnectAttempts ≤ s'.reconnectAttempts →
      handleReconnect s' = none) := by
  have ha1 : ¬ s.reconnectAttempts ≥ maxReconnectAttempts := by
    intro h
    rw [handleReconnect, if_pos h] at h1
    exact Option.noConfusion h1
  rw [handleReconnect, if_neg ha1] at h1
  injection h1 with hp
  rw [Prod.mk.injEq] at hp
  obtain ⟨hs1, hd1⟩ := hp
  have ha2 : ¬ s1.reconnectAttempts ≥ maxReconnectAttempts := by
    intro h
    rw [handleReconnect, if_pos h] at h2
    exact Option.noConfusion h2
  rw [handleReconnect, if_neg ha2] at h2
  injection h2 with hp2
  rw [Prod.mk.injEq] at hp2
  obtain ⟨hs2, hd2⟩ := hp2
  have hatt : s1.reconnectAttempts = s.reconnectAttempts + 1 := by
    rw [← hs1]
  have hmax : maxReconnectAttempts = 5 := rfl
  have hcap : s.reconnectAttempts + 1 ≤ 4 := by
    rw [hatt, hmax] at ha2
    omega
  refine ⟨?_, ?_, ?_, ?_, ?_⟩
  · intro h0
    rw [← hd1, h0]
    decide
  · rw [← hd1, ← hd2, hatt]
    simp [Nat.add_sub_cancel, Nat.pow_succ]
    ring
  · have : d2 = 2 * d1 := by
      rw [← hd1, ← hd2, hatt]
      simp [Nat.add_sub_cancel, Nat.pow_succ]
      ring
    omega
  · rw [← hd2, hatt, hmax]
    have hpow : 2 ^ (s.reconnectAttempts + 1 + 1 - 1) ≤ 2 ^ (5 - 1) := by
      apply Nat.pow_le_pow_right
      · omega
      · omega
    exact Nat.mul_le_mul_left reconnectDelay hpow
  · intro s' h
    rw [handleReconnect, if_pos h]

/-- Witness for C3: the first two delays from a fresh counter are 1000 ms and
2000 ms, the cap is respected, and a counter at the maximum schedules nothing. -/
theorem C3_backoff_witness :
    handleReconnect { reconnectAttempts := 0 } = some ({ reconnectAttempts := 1 }, 1000) ∧
    handleReconnect { reconnectAttempts := 1 } = some ({ reconnectAttempts := 2 }, 2000) ∧
    2000 = 2 * 1000 ∧ (1000 : Nat) ≤ 2000 ∧
    2000 ≤ reconnectDelay * 2 ^ (maxReconnectAttempts - 1) ∧
    handleReconnect { reconnectAttempts := 5 } = none := by
  have h := C3_backoff { reconnectAttempts := 0 } { reconnectAttempts := 1 }
    { reconnectAttempts := 2 } 1000 2000 (by decide) (by decide)
  exact ⟨by decide, by decide, h.2.1, h.2.2.1, h.2.2.2.1,
    h.2.2.2.2 { reconnectAttempts := 5 } (by decide)⟩

/-- Claim C5 counterexample: at playlist position 0 of a two-item playlist, the
`MediaPlayer` error handler advances with delay 0 ms, not after the claimed
3000 ms delay; and the `TVBoxDisplay` error handler, which does wait 3000 ms,
emits no `errorReport` at all.  No code path both reports and delays. -/
theorem C5_counterexample :
    ¬ ((mediaPlayerOnError [exItemA, exItemB] 0).2.2 = 3000) ∧
    (tvboxOnError 2 0).1 = [] := by decide

/-- Claim C5 as amended: on a video error at position K the `MediaPlayer`
scheduler emits an `errorReport` followed by the `ended` playback event and
advances immediately (delay 0) to `(K+1) mod length`; the `TVBoxDisplay`
variant advances to `(K+1) mod length` after a fixed 3000 ms delay but sends no
error report.  In both variants a bad item never halts the loop. -/
theorem C5_error_advances (playlist : List PlaylistItem) (i : Nat) (item : PlaylistItem)
    (n : Nat) (h : playlist[i]? = some item) :
    mediaPlayerOnError playlist i =
      ([TelemetryEvent.errorReport "Video playback error",
        TelemetryEvent.playbackEnded item.id], (i + 1) % playlist.length, 0) ∧
    tvboxOnError n i = ([], (i + 1) % n, 3000) := by
  constructor
  · simp [mediaPlayerOnError, handleMediaEnd, h]
  · rfl

/-- Witness for the amended C5 at position 0 of a concrete two-item playlist. -/
theorem C5_error_advances_witness :
    [exItemA, exItemB][0]? = some exItemA ∧
    mediaPlayerOnError [exItemA, exItemB] 0 =
      ([TelemetryEvent.errorReport "Video playback error",
        TelemetryEvent.playbackEnded exItemA.id], 1, 0) ∧
    tvboxOnError 2 0 = ([], 1, 3000) := by
  have h := C5_error_advances [exItemA, exItemB] 0 exItemA 2 (by decide)
  exact ⟨by decide, by rw [h.1]; decide, by rw [h.2]⟩

/-- Concrete player state whose current item (index 2 of 3) is inactive. -/
def exPlayerState : PlayerState :=
  { playlist := [exItemA, exItemB, exItemCInactive], currentIndex := 2, mediaCache := [],
    currentMediaUrl := none, nextMediaUrl := none, events := [], mediaFetches := 0 }

/-- Claim C9 counterexample: with playlist `[active, active, inactive]` and the
current index 2 pointing at the inactive item, `loadCurrentMedia` advances to
`(2+1) mod 3 = 0` — the advance is mod the full playlist length, not mod the
number of active items, which would give `(2+1) mod 2 = 1`. -/
theorem C9_counterexample :
    (loadCurrentMedia exNetFail exPlayerState 0).currentIndex = 0 ∧
    (exPlayerState.currentIndex + 1) %
      (exPlayerState.playlist.filter (fun i => i.active)).length = 1 ∧
    ¬ ((0 : Nat) = 1) := by decide

/-- Claim C9 as amended: whenever the current index points at an item with
`active = false`, `loadCurrentMedia` immediately advances the index mod the
full playlist length and does nothing else: no playback event is emitted, no
fetch is performed, and the playlist snapshot and media cache are unchanged
(the inactive item stays stored for future reactivation). -/
theorem C9_inactive_skipped (net : String → Option Blob) (s : PlayerState) (now : Nat)
    (item : PlaylistItem) (hcur : s.playlist[s.currentIndex]? = some item)
    (hinact : item.active = false) :
    loadCurrentMedia net s now =
      { s with currentIndex := (s.currentIndex + 1) % s.playlist.length } := by
  have hlt : s.currentIndex < s.playlist.length := by
    by_contra hge
    rw [List.getElem?_eq_none (Nat.le_of_not_lt hge)] at hcur
    exact Option.noConfusion hcur
  have hlen : ¬ s.playlist.length = 0 := by omega
  simp [loadCurrentMedia, hlen, hcur, hinact]

/-- Witness for the amended C9 at the concrete inactive-current-item state. -/
theorem C9_inactive_skipped_witness :
    exPlayerState.playlist[exPlayerState.currentIndex]? = some exItemCInactive ∧
    exItemCInactive.active = false ∧
    loadCurrentMedia exNetFail exPlayerState 0 =
      { exPlayerState with
          currentIndex := (exPlayerState.currentIndex + 1) % exPlayerState.playlist.length } := by
  have h := C9_inactive_skipped exNetFail exPlayerState 0 exItemCInactive
    (by decide) (by decide)
  exact ⟨by decide, by decide, h⟩

/-- Folding IndexedDB `put`s over a batch whose ids are fresh and pairwise
distinct appends the batch to the store. -/
theorem foldl_putItem_eq_append (P : List PlaylistItem) :
    ∀ acc : List PlaylistItem, (∀ x ∈ acc, ∀ y ∈ P, x.id ≠ y.id) →
    P.Pairwise (fun a b => a.id ≠ b.id) → P.foldl putItem acc = acc ++ P := by
  induction P with
  | nil =>
    intro acc _ _
    simp
  | cons p rest ih =>
    intro acc hdisj hpw
    rw [List.foldl_cons]
    have hput : putItem acc p = acc ++ [p] := by
      unfold putItem
      have hfilter : List.filter (fun x => x.id != p.id) acc = acc := by
        apply List.filter_eq_self.mpr
        intro x hx
        simpa using hdisj x hx p (by simp)
      rw [hfilter]
    rw [hput, ih (acc ++ [p]) ?_ ((List.pairwise_cons.mp hpw).2)]
    · simp
    · intro x hx y hy
      rcases List.mem_append.mp hx with h | h
      · exact hdisj x h y (by simp [hy])
      · have hxp : x = p := by simpa using h
        subst hxp
        exact (List.pairwise_cons.mp hpw).1 y hy

/-- `savePlaylist` stores exactly the given items (in order) when their ids are
pairwise distinct. -/
theorem savePlaylist_eq_self (P : List PlaylistItem)
    (hnd : P.Pairwise (fun a b => a.id ≠ b.id)) : savePlaylist P = P := by
  have h := foldl_putItem_eq_append P [] (by simp) hnd
  simpa [savePlaylist] using h

/-- Reading back a saved playlist returns it unchanged when its ids and order
indices are strictly increasing. -/
theorem getPlaylist_savePlaylist (P : List PlaylistItem)
    (hid : P.Pairwise (fun a b => a.id < b.id))
    (hord : P.Pairwise (fun a b => a.order < b.order)) :
    getPlaylist (savePlaylist P) = P := by
  have hne : P.Pairwise (fun a b => a.id ≠ b.id) :=
    hid.imp (fun h => Nat.ne_of_lt h)
  rw [savePlaylist_eq_self P hne]
  unfold getPlaylist
  rw [List.mergeSort_of_sorted (hid.imp (fun h => by simpa using Nat.le_of_lt h)),
    List.mergeSort_of_sorted (hord.imp (fun h => by simpa using le_of_lt h))]

/-- Claim C4: when the playlist fetch fails, `loadPlaylist` leaves the
persisted store, the media cache, `lastSync` and the fetch count untouched and
serves the last persisted snapshot: after a successful sync of a well-formed
playlist `P` (strictly increasing ids and order indices), a failed re-sync
displays exactly `P`. -/
theorem C4_offline_serves_snapshot (s : DeviceState) (P : List PlaylistItem) (t1 t2 : Nat)
    (hid : P.Pairwise (fun a b => a.id < b.id))
    (hord : P.Pairwise (fun a b => a.order < b.order)) (hne : P ≠ []) :
    (loadPlaylist none (loadPlaylist (some P) s t1) t2).playlistStore =
      (loadPlaylist (some P) s t1).playlistStore ∧
    (loadPlaylist none (loadPlaylist (some P) s t1) t2).mediaCache =
      (loadPlaylist (some P) s t1).mediaCache ∧
    (loadPlaylist none (loadPlaylist (some P) s t1) t2).lastSync =
      (loadPlaylist (some P) s t1).lastSync ∧
    (loadPlaylist none (loadPlaylist (some P) s t1) t2).mediaFetches =
      (loadPlaylist (some P) s t1).mediaFetches ∧
    (loadPlaylist none (loadPlaylist (some P) s t1) t2).displayed = P := by
  have hround : getPlaylist (savePlaylist P) = P := getPlaylist_savePlaylist P hid hord
  have hlen : 0 < P.length := List.length_pos.mpr hne
  simp [loadPlaylist, hround, hlen]

/-- Concrete device state used by witnesses. -/
def exDeviceState : DeviceState :=
  { playlistStore := [], mediaCache := [], lastSync := none, displayed := [],
    errorMsg := none, mediaFetches := 0 }

/-- Witness for C4: sync `[exItemA, exItemB]`, then fail the next fetch; the
stored snapshot is served unchanged. -/
theorem C4_offline_serves_snapshot_witness :
    ([exItemA, exItemB] : List PlaylistItem) ≠ [] ∧
    (loadPlaylist none (loadPlaylist (some [exItemA, exItemB]) exDeviceState 1) 2).displayed =
      [exItemA, exItemB] ∧
    (loadPlaylist none (loadPlaylist (some [exItemA, exItemB]) exDeviceState 1) 2).playlistStore =
      (loadPlaylist (some [exItemA, exItemB]) exDeviceState 1).playlistStore := by
  have h := C4_offline_serves_snapshot exDeviceState [exItemA, exItemB] 1 2
    (by decide) (by decide) (by decide)
  exact ⟨by decide, h.2.2.2.2, h.1⟩

/-- The whole `savePlaylist` transaction, applied at its commit point, replaces
the store with exactly the new items regardless of the previous contents. -/
theorem applyTx_savePlaylistTx (store items : List PlaylistItem) :
    applyTx store (savePlaylistTx items) = savePlaylist items := by
  unfold applyTx savePlaylistTx savePlaylist
  rw [List.foldl_cons, List.foldl_map]
  rfl

/-- Every record in the store after a batch of `put`s comes from the initial
store or from the batch. -/
theorem mem_foldl_putItem (l : List PlaylistItem) :
    ∀ acc x, x ∈ l.foldl putItem acc → x ∈ acc ∨ x ∈ l := by
  induction l with
  | nil =>
    intro acc x hx
    exact Or.inl hx
  | cons p rest ih =>
    intro acc x hx
    rw [List.foldl_cons] at hx
    rcases ih (putItem acc p) x hx with h | h
    · unfold putItem at h
      rcases List.mem_append.mp h with h' | h'
      · exact Or.inl (List.mem_of_mem_filter h')
      · have hxp : x = p := by simpa using h'
        subst hxp
        exact Or.inr (by simp)
    · exact Or.inr (by simp [h])

/-- Claim C6: under IndexedDB transaction isolation a reader racing with
`savePlaylist` observes either the complete old store or the complete new
snapshot — every observable state is one of the two, and in particular no
observable state mixes old items with new ones. -/
theorem C6_savePlaylist_atomic (store items o : List PlaylistItem)
    (ho : o ∈ readerObservable store items) :
    (o = store ∨ o = savePlaylist items) ∧
    ((∀ x ∈ o, x ∈ store) ∨ (∀ x ∈ o, x ∈ items)) := by
  have ho' : o = store ∨ o = applyTx store (savePlaylistTx items) := by
    simpa [readerObservable] using ho
  rcases ho' with h | h
  · subst h
    exact ⟨Or.inl rfl, Or.inl (fun x hx => hx)⟩
  · rw [applyTx_savePlaylistTx] at h
    subst h
    refine ⟨Or.inr rfl, Or.inr ?_⟩
    intro x hx
    rcases mem_foldl_putItem items [] x hx with h' | h'
    · exact absurd h' (List.not_mem_nil x)
    · exact h'

/-- Witness for C6: the post-commit observation over a concrete race. -/
theorem C6_savePlaylist_atomic_witness :
    savePlaylist [exItemB] ∈ readerObservable [exItemA] [exItemB] ∧
    ((savePlaylist [exItemB] = [exItemA] ∨ savePlaylist [exItemB] = savePlaylist [exItemB]) ∧
      ((∀ x ∈ savePlaylist [exItemB], x ∈ [exItemA]) ∨
        (∀ x ∈ savePlaylist [exItemB], x ∈ [exItemB]))) := by
  have h := C6_savePlaylist_atomic [exItemA] [exItemB] (savePlaylist [exItemB]) (by decide)
  exact ⟨by decide, h⟩

/-- Total size distributes over list append. -/
theorem cacheTotalSize_append (a b : List CachedVideo) :
    cacheTotalSize (a ++ b) = cacheTotalSize a + cacheTotalSize b := by
  simp [cacheTotalSize]

/-- Total size is a permutation invariant. -/
theorem cacheTotalSize_perm {a b : List CachedVideo} (h : a.Perm b) :
    cacheTotalSize a = cacheTotalSize b := by
  unfold cacheTotalSize
  exact (h.map (fun v => v.size)).sum_eq

/-- Filtering can only shrink the total size. -/
theorem cacheTotalSize_filter_le (p : CachedVideo → Bool) (videos : List CachedVideo) :
    cacheTotalSize (videos.filter p) ≤ cacheTotalSize videos := by
  induction videos with
  | nil => simp [cacheTotalSize]
  | cons v rest ih =>
    by_cases h : p v
    · simp only [List.filter_cons, h, if_pos, cacheTotalSize, List.map_cons, List.sum_cons] at ih ⊢
      omega
    · simp only [List.filter_cons, h, cacheTotalSize, List.map_cons, List.sum_cons,
        Bool.false_eq_true, if_false] at ih ⊢
      omega

/-- The eviction loop removes a block of least-recently-accessed videos off the
front of the sorted list, and stops either because the remaining total fits or
because nothing is left: `evicted ++ rest = sorted`, and the guard holds at the
stopping point or `rest = []`. -/
theorem evictLoop_append (sorted : List CachedVideo) :
    ∀ t r m f, ∃ rest, evictLoop sorted t r m f ++ rest = sorted ∧
      (t + r ≤ m + (f + cacheTotalSize (evictLoop sorted t r m f)) ∨ rest = []) := by
  induction sorted with
  | nil =>
    intro t r m f
    exact ⟨[], by simp [evictLoop], Or.inr rfl⟩
  | cons v rest0 ih =>
    intro t r m f
    by_cases hc : t + r ≤ m + f
    · refine ⟨v :: rest0, by simp [evictLoop, hc], Or.inl ?_⟩
      have he : evictLoop (v :: rest0) t r m f = [] := by
        simp [evictLoop, hc]
      rw [he]
      simpa [cacheTotalSize] using hc
    · obtain ⟨rest', hr, hcond⟩ := ih t r m (f + v.size)
      refine ⟨rest', ?_, ?_⟩
      · simp only [evictLoop, if_neg hc, List.cons_append]
        rw [hr]
      · rcases hcond with h | h
        · left
          simp only [evictLoop, if_neg hc, cacheTotalSize, List.map_cons, List.sum_cons]
          simp only [cacheTotalSize] at h
          omega
        · exact Or.inr h

/-- The evicted block is an initial segment (a `take`) of the sorted list. -/
theorem evictLoop_take (sorted : List CachedVideo) :
    ∀ t r m f, ∃ n, evictLoop sorted t r m f = sorted.take n := by
  induction sorted with
  | nil =>
    intro t r m f
    exact ⟨0, by simp [evictLoop]⟩
  | cons v rest0 ih =>
    intro t r m f
    by_cases hc : t + r ≤ m + f
    · exact ⟨0, by simp [evictLoop, hc]⟩
    · obtain ⟨n, hn⟩ := ih t r m (f + v.size)
      exact ⟨n + 1, by simp [evictLoop, hc, hn, List.take_succ_cons]⟩

/-- Minimality of the eviction loop: it never evicts past an initial segment
whose removal already makes the new entry fit. -/
theorem evictLoop_minimal (sorted : List CachedVideo) :
    ∀ t r m f k, t + r ≤ m + (f + cacheTotalSize (sorted.take k)) →
      (evictLoop sorted t r m f).length ≤ k := by
  induction sorted with
  | nil =>
    intro t r m f k _
    simp [evictLoop]
  | cons v rest0 ih =>
    intro t r m f k hk
    by_cases hc : t + r ≤ m + f
    · simp [evictLoop, hc]
    · cases k with
      | zero =>
        simp only [List.take_zero, cacheTotalSize, List.map_nil, List.sum_nil] at hk
        omega
      | succ k' =>
        have hk' : t + r ≤ m + ((f + v.size) + cacheTotalSize (rest0.take k')) := by
          simp only [List.take_succ_cons, cacheTotalSize, List.map_cons, List.sum_cons] at hk
          simp only [cacheTotalSize]
          omega
        have h := ih t r m (f + v.size) k' hk'
        simp only [evictLoop, if_neg hc, List.length_cons]
        omega

/-- The videos `ensureSpace` evicts: the eviction loop run over the store
sorted by `lastAccessed`, exactly as `VideoCache.ensureSpace` invokes it. -/
def evictedSet (videos : List CachedVideo) (r m : Nat) : List CachedVideo :=
  evictLoop (sortByLastAccessed videos) (cacheTotalSize videos) r m 0

/-- After the eviction loop, the store holds exactly the non-evicted suffix of
the LRU-sorted list (for a store with distinct ids, as IndexedDB guarantees). -/
theorem removeAll_evicted (videos : List CachedVideo) (r m : Nat)
    (hnd : (videos.map (fun v => v.id)).Nodup)
    (rest : List CachedVideo)
    (hsplit : evictedSet videos r m ++ rest = sortByLastAccessed videos) :
    (removeAll videos (evictedSet videos r m)).Perm rest := by
  have hperm : (sortByLastAccessed videos).Perm videos :=
    List.mergeSort_perm videos _
  have hnds : ((sortByLastAccessed videos).map (fun v => v.id)).Nodup := by
    rw [(hperm.map (fun v => v.id)).nodup_iff]
    exact hnd
  have h1 : (removeAll videos (evictedSet videos r m)).Perm
      (removeAll (sortByLastAccessed videos) (evictedSet videos r m)) := by
    unfold removeAll
    exact List.Perm.filter _ hperm.symm
  have h2 : removeAll (sortByLastAccessed videos) (evictedSet videos r m) = rest := by
    rw [← hsplit]
    unfold removeAll
    rw [List.filter_append]
    have hE : List.filter
        (fun v => !(((evictedSet videos r m).map (fun e => e.id)).contains v.id))
        (evictedSet videos r m) = [] := by
      rw [List.filter_eq_nil_iff]
      intro a ha
      simp only [Bool.not_eq_true', Bool.not_eq_false]
      exact List.elem_iff.mpr (List.mem_map.mpr ⟨a, ha, rfl⟩)
    have hR : List.filter
        (fun v => !(((evictedSet videos r m).map (fun e => e.id)).contains v.id))
        rest = rest := by
      rw [List.filter_eq_self]
      intro a ha
      rw [← hsplit, List.map_append, List.nodup_append] at hnds
      have hdisj := hnds.2.2
      have haid : a.id ∈ rest.map (fun v => v.id) := List.mem_map.mpr ⟨a, ha, rfl⟩
      have hnot : a.id ∉ (evictedSet videos r m).map (fun e => e.id) :=
        fun hmem => hdisj hmem haid
      simp only [Bool.not_eq_true']
      rw [← Bool.not_eq_true]
      intro hcont
      exact hnot (List.elem_iff.mp hcont)
    rw [hE, hR, List.nil_append]
  rw [← h2]
  exact h1

/-- When the new entry itself fits in the budget, the store left by
`ensureSpace` plus the new entry fits in the budget. -/
theorem ensureSpace_total (videos : List CachedVideo) (r m : Nat)
    (hnd : (videos.map (fun v => v.id)).Nodup) (hr : r ≤ m) :
    cacheTotalSize (ensureSpace videos r m) + r ≤ m := by
  by_cases hfit : cacheTotalSize videos + r ≤ m
  · rw [ensureSpace, if_pos hfit]
    omega
  · rw [ensureSpace, if_neg hfit]
    obtain ⟨rest, hsplit, hcond⟩ :=
      evictLoop_append (sortByLastAccessed videos) (cacheTotalSize videos) r m 0
    have hEdef : evictLoop (sortByLastAccessed videos) (cacheTotalSize videos) r m 0 =
        evictedSet videos r m := rfl
    rw [hEdef] at hcond
    have hsplit' : evictedSet videos r m ++ rest = sortByLastAccessed videos := hsplit
    have hperm := removeAll_evicted videos r m hnd rest hsplit'
    have hrem : cacheTotalSize (removeAll videos (evictedSet videos r m)) =
        cacheTotalSize rest := cacheTotalSize_perm hperm
    have htot : cacheTotalSize (evictedSet videos r m) + cacheTotalSize rest =
        cacheTotalSize videos := by
      have := cacheTotalSize_perm (List.mergeSort_perm videos
        (fun a b => decide (a.lastAccessed ≤ b.lastAccessed)))
      rw [← cacheTotalSize_append, hsplit']
      exact this
    have hgoal : cacheTotalSize rest + r ≤ m := by
      rcases hcond with h | h
      · simp only [Nat.zero_add] at h
        omega
      · subst h
        simp only [cacheTotalSize, List.map_nil, List.sum_nil]
        omega
    calc cacheTotalSize (removeAll videos (evictedSet videos r m)) + r
        = cacheTotalSize rest + r := by rw [hrem]
      _ ≤ m := hgoal

/-- `put` of the new entry adds at most its size to the total. -/
theorem putVideo_total_le (videos : List CachedVideo) (v : CachedVideo) :
    cacheTotalSize (putVideo videos v) ≤ cacheTotalSize videos + v.size := by
  unfold putVideo
  rw [cacheTotalSize_append]
  have h := cacheTotalSize_filter_le (fun x => x.id != v.id) videos
  simp only [cacheTotalSize, List.map_cons, List.map_nil, List.sum_cons, List.sum_nil] at h ⊢
  omega

/-- The oversized video used by the C1 counterexample: 101 bytes against a
100-byte budget. -/
def exBigVideo : CachedVideo := mkCachedVideo "v1" "u1" ⟨List.replicate 101 0⟩ "video/mp4" 0

/-- Claim C1 counterexample: inserting a 101-byte video into an empty cache
with a 100-byte budget stores the entry and leaves the total at 101 — over
budget.  `cacheVideo` has no CacheFull rejection: after `ensureSpace` has
evicted everything it can, `saveToCache` stores the new entry unconditionally. -/
theorem C1_counterexample :
    100 < cacheTotalSize (cacheVideoStore [] exBigVideo 100) ∧
    exBigVideo ∈ cacheVideoStore [] exBigVideo 100 := by decide

/-- Claim C1 as amended: as long as the new entry alone fits the budget
(`v.size ≤ budget`), eviction makes room and the post-insertion total never
exceeds the budget; when the entry alone exceeds the budget the code stores it
anyway (see the counterexample) instead of raising CacheFull. -/
theorem C1_budget_kept (videos : List CachedVideo) (v : CachedVideo) (m : Nat)
    (hnd : (videos.map (fun x => x.id)).Nodup) (hv : v.size ≤ m) :
    cacheTotalSize (cacheVideoStore videos v m) ≤ m := by
  have h1 : cacheTotalSize (ensureSpace videos v.size m) + v.size ≤ m :=
    ensureSpace_total videos v.size m hnd hv
  have h2 := putVideo_total_le (ensureSpace videos v.size m) v
  unfold cacheVideoStore
  omega

/-- 60-byte video cached first (older `lastAccessed`), for witnesses. -/
def exVid60 : CachedVideo := mkCachedVideo "v60" "u60" ⟨List.replicate 60 0⟩ "video/mp4" 0

/-- 70-byte video inserted second, for witnesses. -/
def exVid70 : CachedVideo := mkCachedVideo "v70" "u70" ⟨List.replicate 70 0⟩ "video/mp4" 5

/-- Witness for the amended C1: with budget 100, inserting the 70-byte video
into a cache holding the 60-byte one stays within budget (the 60-byte entry is
evicted). -/
theorem C1_budget_kept_witness :
    (([exVid60] : List CachedVideo).map (fun x => x.id)).Nodup ∧
    exVid70.size ≤ 100 ∧
    cacheTotalSize (cacheVideoStore [exVid60] exVid70 100) ≤ 100 := by
  have h := C1_budget_kept [exVid60] exVid70 100 (by decide) (by decide)
  exact ⟨by decide, by decide, h⟩

/-- Claim C8: the set evicted by `ensureSpace` is an initial segment of the
store sorted by ascending `lastAccessed` (oldest accessed first); eviction
stops exactly when the remaining total plus the new size fits the budget or
everything has been evicted; it is minimal (hence, for a fixed access-time
ordering, deterministic); and `ensureSpace` removes precisely this set (and
nothing when the new entry already fits). -/
theorem C8_eviction_lru (videos : List CachedVideo) (r m : Nat) :
    (∃ n, evictedSet videos r m = (sortByLastAccessed videos).take n) ∧
    (cacheTotalSize videos + r ≤ m + cacheTotalSize (evictedSet videos r m) ∨
      evictedSet videos r m = sortByLastAccessed videos) ∧
    (∀ k, cacheTotalSize videos + r ≤ m + cacheTotalSize ((sortByLastAccessed videos).take k) →
      (evictedSet videos r m).length ≤ k) ∧
    (¬ cacheTotalSize videos + r ≤ m →
      ensureSpace videos r m = removeAll videos (evictedSet videos r m)) ∧
    (cacheTotalSize videos + r ≤ m → ensureSpace videos r m = videos) := by
  refine ⟨?_, ?_, ?_, ?_, ?_⟩
  · exact evictLoop_take (sortByLastAccessed videos) (cacheTotalSize videos) r m 0
  · obtain ⟨rest, hsplit, hcond⟩ :=
      evictLoop_append (sortByLastAccessed videos) (cacheTotalSize videos) r m 0
    rcases hcond with h | h
    · left
      simpa using h
    · right
      subst h
      simpa using hsplit
  · intro k hk
    apply evictLoop_minimal (sortByLastAccessed videos) (cacheTotalSize videos) r m 0 k
    simpa using hk
  · intro hfit
    rw [ensureSpace, if_neg hfit]
    rfl
  · intro hfit
    rw [ensureSpace, if_pos hfit]

/-- Witness for C8 at the spec's own scenario: budget 100, a 60-byte entry
cached earlier, a 70-byte entry arriving: the 60-byte entry (least recently
accessed) is evicted, deterministically. -/
theorem C8_eviction_lru_witness :
    evictedSet [exVid60] 70 100 = [exVid60] ∧
    ensureSpace [exVid60] 70 100 = [] ∧
    (evictedSet [exVid60] 70 100).length ≤ 1 ∧
    ¬ cacheTotalSize [exVid60] + 70 ≤ 100 := by
  have h := C8_eviction_lru [exVid60] 70 100
  have hs : sortByLastAccessed [exVid60] = [exVid60] := by
    unfold sortByLastAccessed
    exact List.mergeSort_singleton exVid60
  have hE : evictedSet [exVid60] 70 100 = [exVid60] := by
    unfold evictedSet
    rw [hs]
    decide
  refine ⟨hE, ?_, h.2.2.1 1 (by rw [hs]; decide), by decide⟩
  rw [h.2.2.2.1 (by decide), hE]
  decide

end TVBox
